import Mathlib

/-!
Verification of the SAT-based Sudoku solver in `main.py`.

The Python source is shallowly embedded below:

* `v` is the variable numbering function `v(i, j, d)`.
* `sudoku_clauses` is the puzzle-independent clause builder `sudoku_clauses()`;
  its three parts `cellClauses` (the per-cell loop), `rowColClauses`
  (the row/column loop) and `boxClausesAll` (the 3x3 region loop) mirror the
  three loops of the Python function, in order, and `validClauses` mirrors the
  nested helper `valid(cells)`.
* `cell g i j` is the read `grid[i - 1][j - 1]` (1-indexed access used by
  `solve`), `clueClauses` is the unit-clause appending loop of `solve`, and
  `solveClauses` is the full clause list handed to the SAT engine.
* `read_cell` is the decoding helper `read_cell(i, j)` of `solve`, acting on a
  satisfying assignment returned as a list of signed literals; `decodeGrid` is
  the final double loop that overwrites the grid.
* `SolverOut` models the return value of `pycosat.solve`: a list of literals
  when satisfiable, the string result when unsatisfiable; `read_cell_run` and
  `decodeRun` model the decoding loop applied to a raw solver result, where a
  Python `TypeError` (an `int in str` membership test) is an `Except.error`.
* `is_proper` models the uniqueness check `is_proper(clauses)`, with the
  external SAT engine passed as an explicit function and the caller-visible
  mutation of `clauses` returned as the second component.
-/

/-- Python `range(a, b)` as a list of integers. -/
def pyRange (a b : Int) : List Int :=
  (List.range (b - a).toNat).map (fun (k : Nat) => a + (k : Int))

theorem mem_pyRange {a b x : Int} : x ∈ pyRange a b ↔ a ≤ x ∧ x < b := by
  rw [pyRange, List.mem_map]
  constructor
  · rintro ⟨k, hk, rfl⟩
    rw [List.mem_range] at hk
    omega
  · rintro ⟨h1, h2⟩
    refine ⟨(x - a).toNat, ?_, ?_⟩
    · rw [List.mem_range]
      omega
    · omega

theorem length_pyRange (a b : Int) : (pyRange a b).length = (b - a).toNat := by
  rw [pyRange, List.length_map, List.length_range]

theorem nodup_pyRange (a b : Int) : (pyRange a b).Nodup := by
  refine List.Nodup.map ?_ (List.nodup_range _)
  intro k1 k2 h
  simp only at h
  omega

/-- `v(i, j, d)` from `main.py`: the number of the SAT variable of cell
`(i, j)` and digit `d`. -/
def v (i j d : Int) : Int := 81 * (i - 1) + 9 * (j - 1) + d

/-- The first loop of `sudoku_clauses()`: for every cell, one
"at least one digit" clause followed by the 36 "not two digits" clauses. -/
def cellClauses : List (List Int) :=
  (pyRange 1 10).flatMap (fun i =>
    (pyRange 1 10).flatMap (fun j =>
      ((pyRange 1 10).map (fun d => v i j d)) ::
      (pyRange 1 10).flatMap (fun d =>
        (pyRange (d + 1) 10).map (fun dp => [-v i j d, -v i j dp]))))

/-- The helper `valid(cells)` of `sudoku_clauses()`: the 324 clauses it
appends for a list of 9 cells, via `enumerate` index pairs `i < j`. -/
def validClauses (cells : List (Int × Int)) : List (List Int) :=
  cells.enum.flatMap (fun ix =>
    cells.enum.flatMap (fun jx =>
      if ix.1 < jx.1 then
        (pyRange 1 10).map (fun d => [-v ix.2.1 ix.2.2 d, -v jx.2.1 jx.2.2 d])
      else []))

/-- The cell list `[(i, j) for j in range(1, 10)]` (row `i`). -/
def rowCells (i : Int) : List (Int × Int) := (pyRange 1 10).map (fun j => (i, j))

/-- The cell list `[(j, i) for j in range(1, 10)]` (column `i`). -/
def colCells (i : Int) : List (Int × Int) := (pyRange 1 10).map (fun j => (j, i))

/-- The cell list `[(i + k % 3, j + k // 3) for k in range(9)]` (the 3x3
region anchored at `(i, j)`). -/
def boxCells (i j : Int) : List (Int × Int) :=
  (pyRange 0 9).map (fun k => (i + k % 3, j + k / 3))

/-- The second loop of `sudoku_clauses()`: rows and columns, interleaved as in
the source (`valid` on row `i` then on column `i`, for each `i`). -/
def rowColClauses : List (List Int) :=
  (pyRange 1 10).flatMap (fun i =>
    validClauses (rowCells i) ++ validClauses (colCells i))

/-- The third loop of `sudoku_clauses()`: the nine 3x3 regions with anchors
`(i, j)` for `i, j` in `1, 4, 7`. -/
def boxClausesAll : List (List Int) :=
  ([1, 4, 7] : List Int).flatMap (fun i =>
    ([1, 4, 7] : List Int).flatMap (fun j => validClauses (boxCells i j)))

/-- `sudoku_clauses()`: the puzzle-independent clause list, in source order. -/
def sudoku_clauses : List (List Int) := cellClauses ++ rowColClauses ++ boxClausesAll

/-- A Sudoku grid as in the source: a list of rows of integers. -/
abbrev Grid := List (List Int)

/-- The read `grid[i - 1][j - 1]` performed by `solve` (1-indexed `i`, `j`). -/
def cell (g : Grid) (i j : Int) : Int :=
  (g.getD (i - 1).toNat []).getD (j - 1).toNat 0

/-- The clue loop of `solve`: for every cell with a truthy (nonzero) value
`d`, one unit clause `[v(i, j, d)]`, in loop order. -/
def clueClauses (grid : Grid) : List (List Int) :=
  (pyRange 1 10).flatMap (fun i =>
    (pyRange 1 10).flatMap (fun j =>
      if cell grid i j ≠ 0 then [[v i j (cell grid i j)]] else []))

/-- The full clause list of `solve`: `sudoku_clauses()` then the clue units. -/
def solveClauses (grid : Grid) : List (List Int) :=
  sudoku_clauses ++ clueClauses grid

/-- `read_cell(i, j)` of `solve`, on a satisfying assignment given as a list
of signed literals: the first digit `d` in `1..9` with `v(i, j, d)` in the
assignment, `none` when Python would fall through and return `None`. -/
def read_cell (sol : List Int) (i j : Int) : Option Int :=
  (pyRange 1 10).find? (fun d => sol.contains (v i j d))

/-- The final double loop of `solve`: the grid contents after every cell is
overwritten with `read_cell(i, j)` (a digit, or Python `None`). -/
def decodeGrid (sol : List Int) : List (List (Option Int)) :=
  (pyRange 1 10).map (fun i => (pyRange 1 10).map (fun j => read_cell sol i j))

/-- The result of `pycosat.solve`: a list of signed literals when the instance
is satisfiable, or the string `"UNSAT"` otherwise. -/
inductive SolverOut where
  | sat (sol : List Int)
  | unsat
deriving DecidableEq

/-- A Python runtime error raised by the decoding code. -/
inductive PyError where
  | typeError
deriving DecidableEq

/-- The Python membership test `n in sol` on a raw solver result: list
membership on a satisfying assignment, and a `TypeError` on the string
`"UNSAT"` (`in` on a string demands a string on the left, not an `int`). -/
def pyMem (n : Int) (res : SolverOut) : Except PyError Bool :=
  match res with
  | .sat sol => .ok (sol.contains n)
  | .unsat => .error .typeError

/-- The digit loop of `read_cell(i, j)` over a raw solver result. -/
def read_cell_go (res : SolverOut) (i j : Int) : List Int → Except PyError (Option Int)
  | [] => pure none
  | d :: ds => do
      let b ← pyMem (v i j d) res
      if b then pure (some d) else read_cell_go res i j ds

/-- `read_cell(i, j)` of `solve` applied to a raw solver result. -/
def read_cell_run (res : SolverOut) (i j : Int) : Except PyError (Option Int) :=
  read_cell_go res i j (pyRange 1 10)

/-- The decoding double loop of `solve` applied to a raw solver result: the
first raised error aborts the loop and propagates. -/
def decodeRun (res : SolverOut) : Except PyError (List (List (Option Int))) :=
  (pyRange 1 10).mapM (fun i => (pyRange 1 10).mapM (fun j => read_cell_run res i j))

/-- `is_proper(clauses)` with the external SAT engine passed explicitly.  The
source calls the engine, appends the literal-wise negation of the returned
assignment to the caller's list, re-solves, and returns `True` exactly when
the second call does not return a list.  The caller-visible final clause list
is returned as the second component.  A first call returning `"UNSAT"` would
raise a `TypeError` (unary minus applied to a character of the string). -/
def is_proper (solver : List (List Int) → SolverOut) (clauses : List (List Int)) :
    Except PyError (Bool × List (List Int)) :=
  match solver clauses with
  | .unsat => .error .typeError
  | .sat sol =>
      let clauses2 := clauses ++ [sol.map (fun x => -x)]
      match solver clauses2 with
      | .sat _ => .ok (false, clauses2)
      | .unsat => .ok (true, clauses2)

/-! ## Satisfaction and grid validity (specification side) -/

/-- A Boolean assignment makes a signed literal true. -/
def litSat (α : Int → Bool) (l : Int) : Prop :=
  if 0 < l then α l = true else α (-l) = false

/-- A Boolean assignment makes a clause (a disjunction of literals) true. -/
def clauseSat (α : Int → Bool) (c : List Int) : Prop := ∃ l ∈ c, litSat α l

/-- A Boolean assignment makes every clause of a list true. -/
def satList (α : Int → Bool) (cs : List (List Int)) : Prop := ∀ c ∈ cs, clauseSat α c

/-- A clause list is satisfiable. -/
def satisfiable (cs : List (List Int)) : Prop := ∃ α, satList α cs

/-- The grid is a 9x9 array. -/
abbrev dims9 (g : Grid) : Prop := g.length = 9 ∧ ∀ r ∈ g, r.length = 9

/-- Every cell value of the grid lies in `[0, 9]`. -/
abbrev cells09 (g : Grid) : Prop :=
  ∀ i ∈ pyRange 1 10, ∀ j ∈ pyRange 1 10, 0 ≤ cell g i j ∧ cell g i j ≤ 9

/-- The values of row `i` of the grid, `j = 1..9`. -/
def rowVals (g : Grid) (i : Int) : List Int :=
  (pyRange 1 10).map (fun j => cell g i j)

/-- The values of column `j` of the grid, `i = 1..9`. -/
def colVals (g : Grid) (j : Int) : List Int :=
  (pyRange 1 10).map (fun i => cell g i j)

/-- The values of the 3x3 box anchored at `(a, b)`, in the anchor order used
by the source: cells `(a + k % 3, b + k / 3)` for `k = 0..8`. -/
def boxVals (g : Grid) (a b : Int) : List Int :=
  (pyRange 0 9).map (fun k => cell g (a + k % 3) (b + k / 3))

/-- A valid completed Sudoku grid: 9x9, and every row, column and 3x3 box is
a permutation of the digits `1..9`. -/
abbrev validCompleted (g : Grid) : Prop :=
  dims9 g ∧
  (∀ i ∈ pyRange 1 10, (rowVals g i).Perm (pyRange 1 10)) ∧
  (∀ j ∈ pyRange 1 10, (colVals g j).Perm (pyRange 1 10)) ∧
  (∀ a ∈ ([1, 4, 7] : List Int), ∀ b ∈ ([1, 4, 7] : List Int),
    (boxVals g a b).Perm (pyRange 1 10))

/-- `g2` agrees with every nonzero (clue) cell of `g`. -/
abbrev agrees (g g2 : Grid) : Prop :=
  ∀ i ∈ pyRange 1 10, ∀ j ∈ pyRange 1 10, cell g i j ≠ 0 → cell g2 i j = cell g i j

/-- A literal list never contains a literal together with its negation
(pycosat models assign each variable one sign). -/
def consistent (sol : List Int) : Prop := ∀ n : Int, n ∈ sol → -n ∉ sol

/-- Every clause of the list has a literal in `sol` (the model, given as the
signed-literal list pycosat returns, makes every clause true). -/
def satisfies (sol : List Int) (cs : List (List Int)) : Prop :=
  ∀ c ∈ cs, ∃ l ∈ c, l ∈ sol

/-- The 27 cell groups handed to `valid` by `sudoku_clauses()`, in source
order: row `i` and column `i` for each `i`, then the nine box anchors. -/
def groups : List (List (Int × Int)) :=
  (pyRange 1 10).flatMap (fun i => [rowCells i, colCells i]) ++
  ([1, 4, 7] : List Int).flatMap (fun i =>
    ([1, 4, 7] : List Int).map (fun j => boxCells i j))

theorem group_clauses_eq : rowColClauses ++ boxClausesAll = groups.flatMap validClauses := by
  simp [groups, rowColClauses, boxClausesAll, List.flatMap_append, List.flatMap_assoc]

/-! ## Arithmetic facts about the variable numbering -/

theorem v_bounds {i j d : Int} (hi : i ∈ pyRange 1 10) (hj : j ∈ pyRange 1 10)
    (hd : d ∈ pyRange 1 10) : 1 ≤ v i j d ∧ v i j d ≤ 729 := by
  rw [mem_pyRange] at hi hj hd
  simp only [v]
  omega

theorem v_inj {i j d i2 j2 d2 : Int} (hi : i ∈ pyRange 1 10) (hj : j ∈ pyRange 1 10)
    (hd : d ∈ pyRange 1 10) (hi2 : i2 ∈ pyRange 1 10) (hj2 : j2 ∈ pyRange 1 10)
    (hd2 : d2 ∈ pyRange 1 10) (h : v i j d = v i2 j2 d2) : i = i2 ∧ j = j2 ∧ d = d2 := by
  rw [mem_pyRange] at hi hj hd hi2 hj2 hd2
  simp only [v] at h
  omega

/-! ## Membership characterizations of the clause families -/

theorem mem_ite_nil {α : Type} {p : Prop} [Decidable p] {l : List α} {a : α} :
    a ∈ (if p then l else []) ↔ p ∧ a ∈ l := by
  split <;> simp [*]

theorem mem_cellClauses {c : List Int} :
    c ∈ cellClauses ↔
      ∃ i ∈ pyRange 1 10, ∃ j ∈ pyRange 1 10,
        (c = (pyRange 1 10).map (fun d => v i j d) ∨
          ∃ d ∈ pyRange 1 10, ∃ dp ∈ pyRange (d + 1) 10,
            c = [-v i j d, -v i j dp]) := by
  simp only [cellClauses, List.mem_flatMap, List.mem_cons, List.mem_map]
  constructor
  · rintro ⟨i, hi, j, hj, hc | ⟨d, hd, dp, hdp, hc⟩⟩
    · exact ⟨i, hi, j, hj, Or.inl hc⟩
    · exact ⟨i, hi, j, hj, Or.inr ⟨d, hd, dp, hdp, hc.symm⟩⟩
  · rintro ⟨i, hi, j, hj, hc | ⟨d, hd, dp, hdp, hc⟩⟩
    · exact ⟨i, hi, j, hj, Or.inl hc⟩
    · exact ⟨i, hi, j, hj, Or.inr ⟨d, hd, dp, hdp, hc.symm⟩⟩

theorem mem_validClauses {cells : List (Int × Int)} {c : List Int} :
    c ∈ validClauses cells ↔
      ∃ nx ∈ cells.enum, ∃ mx ∈ cells.enum, nx.1 < mx.1 ∧
        ∃ d ∈ pyRange 1 10, c = [-v nx.2.1 nx.2.2 d, -v mx.2.1 mx.2.2 d] := by
  simp only [validClauses, List.mem_flatMap, mem_ite_nil, List.mem_map]
  constructor
  · rintro ⟨nx, hnx, mx, hmx, hlt, d, hd, hc⟩
    exact ⟨nx, hnx, mx, hmx, hlt, d, hd, hc.symm⟩
  · rintro ⟨nx, hnx, mx, hmx, hlt, d, hd, hc⟩
    exact ⟨nx, hnx, mx, hmx, hlt, d, hd, hc.symm⟩

theorem mem_clueClauses {g : Grid} {c : List Int} :
    c ∈ clueClauses g ↔
      ∃ i ∈ pyRange 1 10, ∃ j ∈ pyRange 1 10,
        cell g i j ≠ 0 ∧ c = [v i j (cell g i j)] := by
  simp only [clueClauses, List.mem_flatMap, mem_ite_nil, List.mem_singleton]

theorem mem_groups {gc : List (Int × Int)} :
    gc ∈ groups ↔
      (∃ i ∈ pyRange 1 10, gc = rowCells i ∨ gc = colCells i) ∨
      (∃ a ∈ ([1, 4, 7] : List Int), ∃ b ∈ ([1, 4, 7] : List Int), gc = boxCells a b) := by
  simp only [groups, List.mem_append, List.mem_flatMap, List.mem_cons,
    List.not_mem_nil, or_false, List.mem_map]
  constructor
  · rintro (⟨i, hi, hc⟩ | ⟨a, ha, b, hb, hc⟩)
    · exact Or.inl ⟨i, hi, hc⟩
    · exact Or.inr ⟨a, ha, b, hb, hc.symm⟩
  · rintro (⟨i, hi, hc⟩ | ⟨a, ha, b, hb, hc⟩)
    · exact Or.inl ⟨i, hi, hc⟩
    · exact Or.inr ⟨a, ha, b, hb, hc.symm⟩

theorem mem_sudoku_clauses {c : List Int} :
    c ∈ sudoku_clauses ↔ c ∈ cellClauses ∨ ∃ gc ∈ groups, c ∈ validClauses gc := by
  rw [sudoku_clauses, List.append_assoc, group_clauses_eq, List.mem_append, List.mem_flatMap]

theorem mem_solveClauses {g : Grid} {c : List Int} :
    c ∈ solveClauses g ↔ c ∈ sudoku_clauses ∨ c ∈ clueClauses g := List.mem_append

/-! ## Facts about the 27 cell groups -/

theorem length_of_groups {gc : List (Int × Int)} (h : gc ∈ groups) : gc.length = 9 := by
  rw [mem_groups] at h
  rcases h with ⟨i, _, rfl | rfl⟩ | ⟨a, _, b, _, rfl⟩ <;>
    simp [rowCells, colCells, boxCells, length_pyRange]

theorem coords_of_groups {gc : List (Int × Int)} (h : gc ∈ groups) {p : Int × Int}
    (hp : p ∈ gc) : p.1 ∈ pyRange 1 10 ∧ p.2 ∈ pyRange 1 10 := by
  rw [mem_groups] at h
  rcases h with ⟨i, hi, rfl | rfl⟩ | ⟨a, ha, b, hb, rfl⟩
  · rw [rowCells, List.mem_map] at hp
    obtain ⟨j, hj, rfl⟩ := hp
    exact ⟨hi, hj⟩
  · rw [colCells, List.mem_map] at hp
    obtain ⟨j, hj, rfl⟩ := hp
    exact ⟨hj, hi⟩
  · rw [boxCells, List.mem_map] at hp
    obtain ⟨k, hk, rfl⟩ := hp
    rw [mem_pyRange] at hk
    simp only [List.mem_cons, List.not_mem_nil, or_false] at ha hb
    constructor <;> rw [mem_pyRange] <;> dsimp only <;> omega

theorem nodup_of_groups {gc : List (Int × Int)} (h : gc ∈ groups) : gc.Nodup := by
  rw [mem_groups] at h
  rcases h with ⟨i, _, rfl | rfl⟩ | ⟨a, _, b, _, rfl⟩
  · refine List.Nodup.map ?_ (nodup_pyRange 1 10)
    intro x y hxy
    rw [Prod.mk.injEq] at hxy
    exact hxy.2
  · refine List.Nodup.map ?_ (nodup_pyRange 1 10)
    intro x y hxy
    rw [Prod.mk.injEq] at hxy
    exact hxy.1
  · refine List.Nodup.map ?_ (nodup_pyRange 0 9)
    intro x y hxy
    rw [Prod.mk.injEq] at hxy
    omega

/-! ## Decoding a satisfying Boolean assignment -/

/-- The digit the decoder reads for cell `(i, j)` under assignment `α`: the
first `d` in `1..9` whose variable is assigned true (`0` if none). -/
def digitOf (α : Int → Bool) (i j : Int) : Int :=
  ((pyRange 1 10).find? (fun d => α (v i j d))).getD 0

/-- The full grid read off an assignment, mirroring the decode loop. -/
def decodeAlpha (α : Int → Bool) : Grid :=
  (pyRange 1 10).map (fun i => (pyRange 1 10).map (fun j => digitOf α i j))

theorem exists_digit {α : Int → Bool} (hsat0 : ∀ c ∈ sudoku_clauses, clauseSat α c)
    {i j : Int} (hi : i ∈ pyRange 1 10) (hj : j ∈ pyRange 1 10) :
    ∃ d ∈ pyRange 1 10, α (v i j d) = true := by
  have hmem : ((pyRange 1 10).map (fun d => v i j d)) ∈ sudoku_clauses :=
    mem_sudoku_clauses.mpr (Or.inl (mem_cellClauses.mpr ⟨i, hi, j, hj, Or.inl rfl⟩))
  obtain ⟨l, hl, hlit⟩ := hsat0 _ hmem
  rw [List.mem_map] at hl
  obtain ⟨d, hd, rfl⟩ := hl
  refine ⟨d, hd, ?_⟩
  simp only [litSat] at hlit
  rwa [if_pos (by have := (v_bounds hi hj hd).1; omega)] at hlit

theorem not_two_digits {α : Int → Bool} (hsat0 : ∀ c ∈ sudoku_clauses, clauseSat α c)
    {i j d dp : Int} (hi : i ∈ pyRange 1 10) (hj : j ∈ pyRange 1 10)
    (hd : d ∈ pyRange 1 10) (hdp : dp ∈ pyRange 1 10) (hlt : d < dp) :
    ¬(α (v i j d) = true ∧ α (v i j dp) = true) := by
  have hdp2 : dp ∈ pyRange (d + 1) 10 := by
    rw [mem_pyRange]
    have := mem_pyRange.mp hdp
    omega
  have hmem : [-v i j d, -v i j dp] ∈ sudoku_clauses :=
    mem_sudoku_clauses.mpr (Or.inl (mem_cellClauses.mpr
      ⟨i, hi, j, hj, Or.inr ⟨d, hd, dp, hdp2, rfl⟩⟩))
  rintro ⟨h1, h2⟩
  obtain ⟨l, hl, hlit⟩ := hsat0 _ hmem
  have hb1 := (v_bounds hi hj hd).1
  have hb2 := (v_bounds hi hj hdp).1
  simp only [List.mem_cons, List.not_mem_nil, or_false] at hl
  rcases hl with rfl | rfl <;> simp only [litSat] at hlit
  · rw [if_neg (by omega), neg_neg] at hlit
    rw [h1] at hlit
    exact Bool.true_eq_false.mp hlit
  · rw [if_neg (by omega), neg_neg] at hlit
    rw [h2] at hlit
    exact Bool.true_eq_false.mp hlit

theorem digitOf_spec {α : Int → Bool} (hsat0 : ∀ c ∈ sudoku_clauses, clauseSat α c)
    {i j : Int} (hi : i ∈ pyRange 1 10) (hj : j ∈ pyRange 1 10) :
    digitOf α i j ∈ pyRange 1 10 ∧ α (v i j (digitOf α i j)) = true ∧
      ∀ d ∈ pyRange 1 10, α (v i j d) = true → d = digitOf α i j := by
  obtain ⟨d, hd, hα⟩ := exists_digit hsat0 hi hj
  have hsome : ((pyRange 1 10).find? (fun dd => α (v i j dd))).isSome :=
    List.find?_isSome.mpr ⟨d, hd, hα⟩
  obtain ⟨d0, hd0⟩ := Option.isSome_iff_exists.mp hsome
  have hd0mem := List.mem_of_find?_eq_some hd0
  have hd0α := List.find?_some hd0
  have hdig : digitOf α i j = d0 := by rw [digitOf, hd0]; rfl
  rw [hdig]
  refine ⟨hd0mem, hd0α, ?_⟩
  intro d2 hd2 hα2
  by_contra hne
  rcases lt_or_gt_of_ne hne with hlt | hgt
  · exact not_two_digits hsat0 hi hj hd2 hd0mem hlt ⟨hα2, hd0α⟩
  · exact not_two_digits hsat0 hi hj hd0mem hd2 hgt ⟨hd0α, hα2⟩

theorem getElem?_pyRange (a b : Int) (n : Nat) (h : (n : Int) < b - a) :
    (pyRange a b)[n]? = some (a + n) := by
  rw [pyRange, List.getElem?_map, List.getElem?_range (by omega : n < (b - a).toNat)]
  rfl

theorem cell_decodeAlpha {α : Int → Bool} {i j : Int}
    (hi : i ∈ pyRange 1 10) (hj : j ∈ pyRange 1 10) :
    cell (decodeAlpha α) i j = digitOf α i j := by
  rw [mem_pyRange] at hi hj
  rw [cell, decodeAlpha, List.getD_eq_getElem?_getD, List.getD_eq_getElem?_getD,
    List.getElem?_map, getElem?_pyRange 1 10 _ (by omega)]
  simp only [Option.map_some', Option.getD_some]
  rw [List.getElem?_map, getElem?_pyRange 1 10 _ (by omega)]
  simp only [Option.map_some', Option.getD_some]
  rw [show (1 : Int) + ((i - 1).toNat : Int) = i by omega,
    show (1 : Int) + ((j - 1).toNat : Int) = j by omega]

theorem dims9_decodeAlpha (α : Int → Bool) : dims9 (decodeAlpha α) := by
  constructor
  · simp [decodeAlpha, length_pyRange]
  · intro r hr
    rw [decodeAlpha, List.mem_map] at hr
    obtain ⟨i, _, rfl⟩ := hr
    simp [length_pyRange]

theorem validCompleted_of_groups {g2 : Grid} (hdim : dims9 g2)
    (h : ∀ gc ∈ groups, (gc.map (fun p => cell g2 p.1 p.2)).Perm (pyRange 1 10)) :
    validCompleted g2 := by
  refine ⟨hdim, ?_, ?_, ?_⟩
  · intro i hi
    have hp := h (rowCells i) (mem_groups.mpr (Or.inl ⟨i, hi, Or.inl rfl⟩))
    rw [rowCells, List.map_map] at hp
    exact hp
  · intro j hj
    have hp := h (colCells j) (mem_groups.mpr (Or.inl ⟨j, hj, Or.inr rfl⟩))
    rw [colCells, List.map_map] at hp
    exact hp
  · intro a ha b hb
    have hp := h (boxCells a b) (mem_groups.mpr (Or.inr ⟨a, ha, b, hb, rfl⟩))
    rw [boxCells, List.map_map] at hp
    exact hp

theorem validCompleted_groups {g2 : Grid} (hval : validCompleted g2)
    {gc : List (Int × Int)} (hgc : gc ∈ groups) :
    (gc.map (fun p => cell g2 p.1 p.2)).Perm (pyRange 1 10) := by
  rw [mem_groups] at hgc
  obtain ⟨hdim, hrow, hcol, hbox⟩ := hval
  rcases hgc with ⟨i, hi, rfl | rfl⟩ | ⟨a, ha, b, hb, rfl⟩
  · rw [rowCells, List.map_map]
    exact hrow i hi
  · rw [colCells, List.map_map]
    exact hcol i hi
  · rw [boxCells, List.map_map]
    exact hbox a ha b hb

theorem group_vals_nodup {α : Int → Bool} (hsat0 : ∀ c ∈ sudoku_clauses, clauseSat α c)
    {gc : List (Int × Int)} (hgc : gc ∈ groups) :
    (gc.map (fun p => digitOf α p.1 p.2)).Nodup := by
  rw [List.Nodup, List.pairwise_map, List.pairwise_iff_getElem]
  intro n m hn hm hlt heq
  have hpn : gc[n] ∈ gc := List.getElem_mem hn
  have hpm : gc[m] ∈ gc := List.getElem_mem hm
  obtain ⟨hc1n, hc2n⟩ := coords_of_groups hgc hpn
  obtain ⟨hc1m, hc2m⟩ := coords_of_groups hgc hpm
  have hspecn := digitOf_spec hsat0 hc1n hc2n
  have hspecm := digitOf_spec hsat0 hc1m hc2m
  have hnx : ((n, gc[n]) : Nat × (Int × Int)) ∈ gc.enum := by
    have hb : n < gc.enum.length := by rw [List.enum_length]; exact hn
    have he := List.getElem_enum gc n hb
    rw [← he]
    exact List.getElem_mem hb
  have hmx : ((m, gc[m]) : Nat × (Int × Int)) ∈ gc.enum := by
    have hb : m < gc.enum.length := by rw [List.enum_length]; exact hm
    have he := List.getElem_enum gc m hb
    rw [← he]
    exact List.getElem_mem hb
  have hcl : [-v (gc[n]).1 (gc[n]).2 (digitOf α (gc[n]).1 (gc[n]).2),
      -v (gc[m]).1 (gc[m]).2 (digitOf α (gc[n]).1 (gc[n]).2)] ∈ validClauses gc :=
    mem_validClauses.mpr ⟨(n, gc[n]), hnx, (m, gc[m]), hmx, hlt, _, hspecn.1, rfl⟩
  obtain ⟨l, hl, hlit⟩ := hsat0 _ (mem_sudoku_clauses.mpr (Or.inr ⟨gc, hgc, hcl⟩))
  have hb1 := (v_bounds hc1n hc2n hspecn.1).1
  have hb2 := (v_bounds hc1m hc2m hspecn.1).1
  have hαn : α (v (gc[n]).1 (gc[n]).2 (digitOf α (gc[n]).1 (gc[n]).2)) = true := hspecn.2.1
  have hαm : α (v (gc[m]).1 (gc[m]).2 (digitOf α (gc[n]).1 (gc[n]).2)) = true := by
    rw [heq]
    exact hspecm.2.1
  simp only [List.mem_cons, List.not_mem_nil, or_false] at hl
  rcases hl with rfl | rfl <;> simp only [litSat] at hlit
  · rw [if_neg (by omega), neg_neg, hαn] at hlit
    exact Bool.noConfusion hlit
  · rw [if_neg (by omega), neg_neg, hαm] at hlit
    exact Bool.noConfusion hlit

theorem group_vals_perm {α : Int → Bool} (hsat0 : ∀ c ∈ sudoku_clauses, clauseSat α c)
    {gc : List (Int × Int)} (hgc : gc ∈ groups) :
    (gc.map (fun p => digitOf α p.1 p.2)).Perm (pyRange 1 10) := by
  have hnd := group_vals_nodup hsat0 hgc
  have hsub : (gc.map (fun p => digitOf α p.1 p.2)) ⊆ pyRange 1 10 := by
    intro x hx
    rw [List.mem_map] at hx
    obtain ⟨p, hp, rfl⟩ := hx
    obtain ⟨h1, h2⟩ := coords_of_groups hgc hp
    exact (digitOf_spec hsat0 h1 h2).1
  refine (hnd.subperm hsub).perm_of_length_le ?_
  rw [List.length_map, length_of_groups hgc, length_pyRange]
  decide

/-- Soundness of the encoding: any Boolean assignment satisfying the full
instance of a grid decodes to a valid completed Sudoku that agrees with the
grid's clues. -/
theorem decode_of_model {g : Grid} {α : Int → Bool} (h09 : cells09 g)
    (hsat : satList α (solveClauses g)) :
    validCompleted (decodeAlpha α) ∧ agrees g (decodeAlpha α) := by
  have hsat0 : ∀ c ∈ sudoku_clauses, clauseSat α c := fun c hc =>
    hsat c (mem_solveClauses.mpr (Or.inl hc))
  constructor
  · refine validCompleted_of_groups (dims9_decodeAlpha α) ?_
    intro gc hgc
    have hperm := group_vals_perm hsat0 hgc
    rw [List.map_congr_left (fun p hp =>
      cell_decodeAlpha (coords_of_groups hgc hp).1 (coords_of_groups hgc hp).2)]
    exact hperm
  · intro i hi j hj hnz
    have hdg : cell g i j ∈ pyRange 1 10 := by
      have := h09 i hi j hj
      rw [mem_pyRange]
      omega
    obtain ⟨l, hl, hlit⟩ := hsat _ (mem_solveClauses.mpr (Or.inr
      (mem_clueClauses.mpr ⟨i, hi, j, hj, hnz, rfl⟩)))
    rw [List.mem_singleton] at hl
    subst hl
    simp only [litSat] at hlit
    rw [if_pos (by have := (v_bounds hi hj hdg).1; omega)] at hlit
    rw [cell_decodeAlpha hi hj]
    exact ((digitOf_spec hsat0 hi hj).2.2 _ hdg hlit).symm

/-- The Boolean assignment read off a completed grid: variable `n` is true
exactly when the grid holds the digit `n` encodes at the cell `n` encodes. -/
def alphaOf (g2 : Grid) : Int → Bool := fun n =>
  decide (cell g2 ((n - 1) / 81 + 1) ((n - 1) % 81 / 9 + 1) = (n - 1) % 9 + 1)

theorem alphaOf_v {g2 : Grid} {i j d : Int} (hi : i ∈ pyRange 1 10)
    (hj : j ∈ pyRange 1 10) (hd : d ∈ pyRange 1 10) :
    alphaOf g2 (v i j d) = decide (cell g2 i j = d) := by
  rw [mem_pyRange] at hi hj hd
  have h1 : (v i j d - 1) / 81 + 1 = i := by simp only [v]; omega
  have h2 : (v i j d - 1) % 81 / 9 + 1 = j := by simp only [v]; omega
  have h3 : (v i j d - 1) % 9 + 1 = d := by simp only [v]; omega
  simp only [alphaOf]
  rw [h1, h2, h3]

/-- Completeness of the encoding: a valid completed Sudoku grid that agrees
with the grid's clues induces a Boolean assignment satisfying the full
instance. -/
theorem model_of_completion {g g2 : Grid} (h09 : cells09 g)
    (hval : validCompleted g2) (hagr : agrees g g2) :
    satList (alphaOf g2) (solveClauses g) := by
  intro c hc
  rcases mem_solveClauses.mp hc with hc | hc
  · rcases mem_sudoku_clauses.mp hc with hc | ⟨gc, hgc, hc⟩
    · rcases mem_cellClauses.mp hc with ⟨i, hi, j, hj, rfl | ⟨d, hd, dp, hdp, rfl⟩⟩
      · have hcell : cell g2 i j ∈ pyRange 1 10 := by
          have hperm := hval.2.1 i hi
          have hmem : cell g2 i j ∈ rowVals g2 i := by
            rw [rowVals, List.mem_map]
            exact ⟨j, hj, rfl⟩
          exact hperm.mem_iff.mp hmem
        refine ⟨v i j (cell g2 i j), ?_, ?_⟩
        · rw [List.mem_map]
          exact ⟨cell g2 i j, hcell, rfl⟩
        · simp only [litSat]
          rw [if_pos (by have := (v_bounds hi hj hcell).1; omega), alphaOf_v hi hj hcell]
          simp
      · have hdp9 : dp ∈ pyRange 1 10 := by
          rw [mem_pyRange] at hd hdp ⊢
          omega
        by_cases hcd : cell g2 i j = d
        · refine ⟨-v i j dp, by simp, ?_⟩
          simp only [litSat]
          rw [if_neg (by have := (v_bounds hi hj hdp9).1; omega), neg_neg,
            alphaOf_v hi hj hdp9, decide_eq_false_iff_not]
          rw [mem_pyRange] at hd hdp
          omega
        · refine ⟨-v i j d, by simp, ?_⟩
          simp only [litSat]
          rw [if_neg (by have := (v_bounds hi hj hd).1; omega), neg_neg,
            alphaOf_v hi hj hd, decide_eq_false_iff_not]
          exact hcd
    · obtain ⟨nx, hnx, mx, hmx, hlt, d, hd, rfl⟩ := mem_validClauses.mp hc
      rw [List.mem_enum_iff_get?] at hnx hmx
      have hvals := validCompleted_groups hval hgc
      have hnodup : (gc.map (fun p => cell g2 p.1 p.2)).Nodup :=
        hvals.nodup_iff.mpr (nodup_pyRange 1 10)
      have hpn : nx.2 ∈ gc := List.get?_mem hnx
      have hpm : mx.2 ∈ gc := List.get?_mem hmx
      obtain ⟨hn1, hn2⟩ := coords_of_groups hgc hpn
      obtain ⟨hm1, hm2⟩ := coords_of_groups hgc hpm
      by_cases hcd : cell g2 nx.2.1 nx.2.2 = d
      · have hne : cell g2 mx.2.1 mx.2.2 ≠ d := by
          intro hmd
          have hvn : (gc.map (fun p => cell g2 p.1 p.2)).get? nx.1 =
              some d := by
            rw [List.get?_map, hnx]
            simp [hcd]
          have hvm : (gc.map (fun p => cell g2 p.1 p.2)).get? mx.1 =
              some d := by
            rw [List.get?_map, hmx]
            simp [hmd]
          have hlen : nx.1 < (gc.map (fun p => cell g2 p.1 p.2)).length := by
            rw [List.length_map]
            obtain ⟨hb, _⟩ := List.get?_eq_some.mp hnx
            exact hb
          have := List.get?_inj hlen hnodup (hvn.trans hvm.symm)
          omega
        refine ⟨-v mx.2.1 mx.2.2 d, by simp, ?_⟩
        simp only [litSat]
        rw [if_neg (by have := (v_bounds hm1 hm2 hd).1; omega), neg_neg,
          alphaOf_v hm1 hm2 hd, decide_eq_false_iff_not]
        exact hne
      · refine ⟨-v nx.2.1 nx.2.2 d, by simp, ?_⟩
        simp only [litSat]
        rw [if_neg (by have := (v_bounds hn1 hn2 hd).1; omega), neg_neg,
          alphaOf_v hn1 hn2 hd, decide_eq_false_iff_not]
        exact hcd
  · obtain ⟨i, hi, j, hj, hnz, rfl⟩ := mem_clueClauses.mp hc
    have hdg : cell g i j ∈ pyRange 1 10 := by
      have := h09 i hi j hj
      rw [mem_pyRange]
      omega
    refine ⟨v i j (cell g i j), by simp, ?_⟩
    simp only [litSat]
    rw [if_pos (by have := (v_bounds hi hj hdg).1; omega), alphaOf_v hi hj hdg]
    simp [hagr i hi j hj hnz]

/-! ## Bridging literal-list models and Boolean assignments -/

theorem satList_of_satisfies {sol : List Int} {cs : List (List Int)}
    (hcons : consistent sol) (hsat : satisfies sol cs) :
    satList (fun n => sol.contains n) cs := by
  intro c hc
  obtain ⟨l, hl, hmem⟩ := hsat c hc
  refine ⟨l, hl, ?_⟩
  simp only [litSat]
  rcases lt_trichotomy 0 l with hpos | hz | hneg
  · rw [if_pos hpos]
    exact List.elem_iff.mpr hmem
  · exfalso
    have h0 := hcons l hmem
    rw [← hz, neg_zero] at h0
    rw [← hz] at hmem
    exact h0 hmem
  · rw [if_neg (by omega)]
    have hnot := hcons l hmem
    simpa using hnot

/-- The literal list pycosat would return for the assignment of a completed
grid: one signed literal per variable `1..729`. -/
def solOf (g2 : Grid) : List Int :=
  (pyRange 1 730).map (fun n => if alphaOf g2 n then n else -n)

theorem consistent_solOf (g2 : Grid) : consistent (solOf g2) := by
  intro x hx hnx
  rw [solOf, List.mem_map] at hx hnx
  obtain ⟨n, hn, hxn⟩ := hx
  obtain ⟨m, hm, hxm⟩ := hnx
  rw [mem_pyRange] at hn hm
  by_cases han : alphaOf g2 n
  · rw [if_pos han] at hxn
    by_cases ham : alphaOf g2 m
    · rw [if_pos ham] at hxm
      omega
    · rw [if_neg ham] at hxm
      have hmn : m = n := by omega
      rw [hmn] at ham
      exact ham han
  · rw [if_neg han] at hxn
    by_cases ham : alphaOf g2 m
    · rw [if_pos ham] at hxm
      have hmn : m = n := by omega
      rw [hmn] at ham
      exact han ham
    · rw [if_neg ham] at hxm
      omega

theorem satisfies_solOf {g2 : Grid} {cs : List (List Int)}
    (hrange : ∀ c ∈ cs, ∀ l ∈ c, (1 ≤ l ∧ l ≤ 729) ∨ (-729 ≤ l ∧ l ≤ -1))
    (hsat : satList (alphaOf g2) cs) : satisfies (solOf g2) cs := by
  intro c hc
  obtain ⟨l, hl, hlit⟩ := hsat c hc
  refine ⟨l, hl, ?_⟩
  rcases hrange c hc l hl with ⟨h1, h2⟩ | ⟨h1, h2⟩
  · simp only [litSat] at hlit
    rw [if_pos (by omega)] at hlit
    rw [solOf, List.mem_map]
    exact ⟨l, mem_pyRange.mpr (by omega), by rw [if_pos hlit]⟩
  · simp only [litSat] at hlit
    rw [if_neg (by omega)] at hlit
    rw [solOf, List.mem_map]
    exact ⟨-l, mem_pyRange.mpr (by omega), by rw [if_neg (by simp [hlit]), neg_neg]⟩

theorem solveClauses_lit_range {g : Grid} (h09 : cells09 g) :
    ∀ c ∈ solveClauses g, ∀ l ∈ c, (1 ≤ l ∧ l ≤ 729) ∨ (-729 ≤ l ∧ l ≤ -1) := by
  intro c hc l hl
  rcases mem_solveClauses.mp hc with hc | hc
  · rcases mem_sudoku_clauses.mp hc with hc | ⟨gc, hgc, hc⟩
    · rcases mem_cellClauses.mp hc with ⟨i, hi, j, hj, rfl | ⟨d, hd, dp, hdp, rfl⟩⟩
      · rw [List.mem_map] at hl
        obtain ⟨d, hd, rfl⟩ := hl
        exact Or.inl (v_bounds hi hj hd)
      · have hdp9 : dp ∈ pyRange 1 10 := by
          rw [mem_pyRange] at hd hdp ⊢
          omega
        simp only [List.mem_cons, List.not_mem_nil, or_false] at hl
        rcases hl with rfl | rfl
        · have := v_bounds hi hj hd
          exact Or.inr (by omega)
        · have := v_bounds hi hj hdp9
          exact Or.inr (by omega)
    · obtain ⟨nx, hnx, mx, hmx, hlt, d, hd, rfl⟩ := mem_validClauses.mp hc
      have hpn := coords_of_groups hgc (List.get?_mem (List.mem_enum_iff_get?.mp hnx))
      have hpm := coords_of_groups hgc (List.get?_mem (List.mem_enum_iff_get?.mp hmx))
      simp only [List.mem_cons, List.not_mem_nil, or_false] at hl
      rcases hl with rfl | rfl
      · have := v_bounds hpn.1 hpn.2 hd
        exact Or.inr (by omega)
      · have := v_bounds hpm.1 hpm.2 hd
        exact Or.inr (by omega)
  · obtain ⟨i, hi, j, hj, hnz, rfl⟩ := mem_clueClauses.mp hc
    have hdg : cell g i j ∈ pyRange 1 10 := by
      have := h09 i hi j hj
      rw [mem_pyRange]
      omega
    rw [List.mem_singleton] at hl
    subst hl
    exact Or.inl (v_bounds hi hj hdg)

/-! ## Concrete grids used as witnesses -/

/-- The grid of the end-to-end scenario: only `grid[0][1] = 2` is nonzero. -/
def g021 : Grid :=
  [[0, 2, 0, 0, 0, 0, 0, 0, 0],
   [0, 0, 0, 0, 0, 0, 0, 0, 0],
   [0, 0, 0, 0, 0, 0, 0, 0, 0],
   [0, 0, 0, 0, 0, 0, 0, 0, 0],
   [0, 0, 0, 0, 0, 0, 0, 0, 0],
   [0, 0, 0, 0, 0, 0, 0, 0, 0],
   [0, 0, 0, 0, 0, 0, 0, 0, 0],
   [0, 0, 0, 0, 0, 0, 0, 0, 0],
   [0, 0, 0, 0, 0, 0, 0, 0, 0]]

/-- A valid completed Sudoku grid whose cell `(1, 2)` holds `2`. -/
def gridG0 : Grid :=
  [[1, 2, 3, 4, 5, 6, 7, 8, 9],
   [4, 5, 6, 7, 8, 9, 1, 2, 3],
   [7, 8, 9, 1, 2, 3, 4, 5, 6],
   [2, 3, 4, 5, 6, 7, 8, 9, 1],
   [5, 6, 7, 8, 9, 1, 2, 3, 4],
   [8, 9, 1, 2, 3, 4, 5, 6, 7],
   [3, 4, 5, 6, 7, 8, 9, 1, 2],
   [6, 7, 8, 9, 1, 2, 3, 4, 5],
   [9, 1, 2, 3, 4, 5, 6, 7, 8]]

/-- C1: for every 9x9 grid with cell values in `[0, 9]`, the clause
collection built by `solve` (the base clauses plus one unit clause per
nonzero cell) is satisfiable exactly when the grid has a valid
completed-Sudoku completion agreeing with its nonzero cells. -/
theorem solveClauses_equisat_valid_completion (g : Grid) (hdim : dims9 g)
    (h09 : cells09 g) :
    satisfiable (solveClauses g) ↔ ∃ g2, validCompleted g2 ∧ agrees g g2 := by
  constructor
  · rintro ⟨α, hsat⟩
    exact ⟨decodeAlpha α, (decode_of_model h09 hsat).1, (decode_of_model h09 hsat).2⟩
  · rintro ⟨g2, hval, hagr⟩
    exact ⟨alphaOf g2, model_of_completion h09 hval hagr⟩

/-- Witness for C1 at the concrete one-clue grid `g021`. -/
theorem solveClauses_equisat_witness :
    dims9 g021 ∧ cells09 g021 ∧
      (satisfiable (solveClauses g021) ↔ ∃ g2, validCompleted g2 ∧ agrees g021 g2) :=
  ⟨by decide, by decide, solveClauses_equisat_valid_completion g021 (by decide) (by decide)⟩

/-- The grid contents after the decode loop of `solve`, with each cell
holding the digit `read_cell(i, j)` returned (`0` standing for a cell Python
would leave as `None`; under a satisfying assignment every cell is a digit). -/
def solvedGrid (sol : List Int) : Grid :=
  (pyRange 1 10).map (fun i => (pyRange 1 10).map (fun j => (read_cell sol i j).getD 0))

theorem solvedGrid_eq_decodeAlpha (sol : List Int) :
    solvedGrid sol = decodeAlpha (fun n => sol.contains n) := rfl

/-- C6: whenever the solver returns a satisfying assignment `sol` (a
consistent literal list making every clause of the instance true) for the
base-plus-clue instance of a 9x9 grid with values in `[0, 9]`, the decode
loop gives every cell the unique digit `d` with `v(i, j, d)` asserted
positively, the resulting grid is a valid completed Sudoku, and every
originally nonzero cell keeps its clue value. -/
theorem solve_decode_correct (g : Grid) (sol : List Int) (hdim : dims9 g)
    (h09 : cells09 g) (hcons : consistent sol)
    (hsat : satisfies sol (solveClauses g)) :
    (∀ i ∈ pyRange 1 10, ∀ j ∈ pyRange 1 10, ∃ d,
        read_cell sol i j = some d ∧ v i j d ∈ sol ∧
          ∀ dp ∈ pyRange 1 10, v i j dp ∈ sol → dp = d) ∧
    (∀ i ∈ pyRange 1 10, ∀ j ∈ pyRange 1 10,
        cell (solvedGrid sol) i j = (read_cell sol i j).getD 0) ∧
    validCompleted (solvedGrid sol) ∧ agrees g (solvedGrid sol) ∧
    (∀ i ∈ pyRange 1 10, ∀ j ∈ pyRange 1 10, cell g i j ≠ 0 →
        read_cell sol i j = some (cell g i j)) := by
  have hα : satList (fun n => sol.contains n) (solveClauses g) :=
    satList_of_satisfies hcons hsat
  have hsat0 : ∀ c ∈ sudoku_clauses, clauseSat (fun n => sol.contains n) c :=
    fun c hc => hα c (mem_solveClauses.mpr (Or.inl hc))
  have hdm := decode_of_model h09 hα
  have hkey : ∀ i ∈ pyRange 1 10, ∀ j ∈ pyRange 1 10, ∃ d,
      read_cell sol i j = some d ∧ v i j d ∈ sol ∧
        ∀ dp ∈ pyRange 1 10, v i j dp ∈ sol → dp = d := by
    intro i hi j hj
    obtain ⟨d, hd, hdt⟩ := exists_digit hsat0 hi hj
    have hsome : (read_cell sol i j).isSome := List.find?_isSome.mpr ⟨d, hd, hdt⟩
    obtain ⟨d0, hd0⟩ := Option.isSome_iff_exists.mp hsome
    rw [read_cell] at hd0
    have hd0mem : d0 ∈ pyRange 1 10 := List.mem_of_find?_eq_some hd0
    have hd0t := List.find?_some hd0
    refine ⟨d0, hd0, List.elem_iff.mp hd0t, ?_⟩
    intro dp hdp hdpmem
    by_contra hne
    have hdpt : sol.contains (v i j dp) = true := List.elem_iff.mpr hdpmem
    rcases lt_or_gt_of_ne hne with hlt | hgt
    · exact not_two_digits hsat0 hi hj hdp hd0mem hlt ⟨hdpt, hd0t⟩
    · exact not_two_digits hsat0 hi hj hd0mem hdp hgt ⟨hd0t, hdpt⟩
  have hcell : ∀ i ∈ pyRange 1 10, ∀ j ∈ pyRange 1 10,
      cell (solvedGrid sol) i j = (read_cell sol i j).getD 0 := by
    intro i hi j hj
    rw [solvedGrid_eq_decodeAlpha, cell_decodeAlpha hi hj]
    rfl
  refine ⟨hkey, hcell, ?_, ?_, ?_⟩
  · rw [solvedGrid_eq_decodeAlpha]
    exact hdm.1
  · rw [solvedGrid_eq_decodeAlpha]
    exact hdm.2
  · intro i hi j hj hnz
    obtain ⟨d, hrc, hdmem, huni⟩ := hkey i hi j hj
    have hag := hdm.2 i hi j hj hnz
    rw [cell_decodeAlpha hi hj] at hag
    have hdig : digitOf (fun n => sol.contains n) i j = (read_cell sol i j).getD 0 := rfl
    rw [hrc] at hdig
    rw [hrc, Option.some_inj]
    rw [← hag, hdig]
    rfl

/-- Witness for C6 at the one-clue grid `g021` and the model of `gridG0`:
the clue `grid[0][1] = 2` survives decoding. -/
theorem solve_decode_correct_witness :
    cell g021 1 2 = 2 ∧ consistent (solOf gridG0) ∧
      satisfies (solOf gridG0) (solveClauses g021) ∧
      read_cell (solOf gridG0) 1 2 = some 2 := by
  have h09 : cells09 g021 := by decide
  have hcons := consistent_solOf gridG0
  have hsat : satisfies (solOf gridG0) (solveClauses g021) :=
    satisfies_solOf (solveClauses_lit_range h09)
      (model_of_completion h09 (by decide) (by decide))
  have hmain := solve_decode_correct g021 (solOf gridG0) (by decide) h09 hcons hsat
  refine ⟨by decide, hcons, hsat, ?_⟩
  have hpres := hmain.2.2.2.2 1 (by decide) 2 (by decide) (by decide)
  rw [hpres]
  decide

/-- C2: the variable numbering returns `81*(i-1) + 9*(j-1) + d`, is injective
on `[1,9]^3`, and its range there is exactly `[1, 729]`. -/
theorem v_formula_inj_range :
    (∀ i j d : Int, v i j d = 81 * (i - 1) + 9 * (j - 1) + d) ∧
    (∀ i ∈ pyRange 1 10, ∀ j ∈ pyRange 1 10, ∀ d ∈ pyRange 1 10,
      ∀ i2 ∈ pyRange 1 10, ∀ j2 ∈ pyRange 1 10, ∀ d2 ∈ pyRange 1 10,
        v i j d = v i2 j2 d2 → i = i2 ∧ j = j2 ∧ d = d2) ∧
    (∀ i ∈ pyRange 1 10, ∀ j ∈ pyRange 1 10, ∀ d ∈ pyRange 1 10,
      1 ≤ v i j d ∧ v i j d ≤ 729) ∧
    (∀ n : Int, 1 ≤ n → n ≤ 729 →
      ∃ i ∈ pyRange 1 10, ∃ j ∈ pyRange 1 10, ∃ d ∈ pyRange 1 10, v i j d = n) := by
  refine ⟨fun i j d => rfl, ?_, ?_, ?_⟩
  · intro i hi j hj d hd i2 hi2 j2 hj2 d2 hd2 h
    exact v_inj hi hj hd hi2 hj2 hd2 h
  · intro i hi j hj d hd
    exact v_bounds hi hj hd
  · intro n h1 h2
    refine ⟨(n - 1) / 81 + 1, mem_pyRange.mpr (by omega), (n - 1) % 81 / 9 + 1,
      mem_pyRange.mpr (by omega), (n - 1) % 9 + 1, mem_pyRange.mpr (by omega), ?_⟩
    simp only [v]
    omega

/-- Witness for C2 at concrete points. -/
theorem v_formula_inj_range_witness :
    (1 ≤ v 2 3 4 ∧ v 2 3 4 ≤ 729) ∧
      (∃ i ∈ pyRange 1 10, ∃ j ∈ pyRange 1 10, ∃ d ∈ pyRange 1 10, v i j d = 500) :=
  ⟨v_formula_inj_range.2.2.1 2 (by decide) 3 (by decide) 4 (by decide),
   v_formula_inj_range.2.2.2 500 (by decide) (by decide)⟩

theorem flatMap_ite_singleton {α β : Type} (l : List α) (q : α → Prop)
    [DecidablePred q] (f : α → β) :
    (l.flatMap (fun x => if q x then [f x] else [])) =
      (l.filter (fun x => decide (q x))).map f := by
  induction l with
  | nil => rfl
  | cons x xs ih =>
    by_cases hx : q x <;> simp [List.flatMap_cons, List.filter_cons, hx, ih]

/-- C5: `solve` builds the base clauses and then appends exactly one unit
clause per nonzero cell, in cell order, removing or altering nothing. -/
theorem clue_injection_exact (g : Grid) :
    solveClauses g = sudoku_clauses ++ clueClauses g ∧
    clueClauses g = (pyRange 1 10).flatMap (fun i =>
      ((pyRange 1 10).filter (fun j => decide (cell g i j ≠ 0))).map
        (fun j => [v i j (cell g i j)])) ∧
    (∀ c : List Int, c ∈ clueClauses g ↔
      ∃ i ∈ pyRange 1 10, ∃ j ∈ pyRange 1 10,
        cell g i j ≠ 0 ∧ c = [v i j (cell g i j)]) := by
  refine ⟨rfl, ?_, fun c => mem_clueClauses⟩
  rw [clueClauses]
  have h : ∀ i : Int, ((pyRange 1 10).flatMap (fun j =>
      if cell g i j ≠ 0 then [[v i j (cell g i j)]] else [])) =
      ((pyRange 1 10).filter (fun j => decide (cell g i j ≠ 0))).map
        (fun j => [v i j (cell g i j)]) :=
    fun i => flatMap_ite_singleton (pyRange 1 10) (fun j => cell g i j ≠ 0)
      (fun j => [v i j (cell g i j)])
  exact congrArg (fun F => (pyRange 1 10).flatMap F) (funext h)

/-- Witness for C5: at the one-clue grid the single unit clause is present. -/
theorem clue_injection_exact_witness :
    [v 1 2 (cell g021 1 2)] ∈ clueClauses g021 ∧
      solveClauses g021 = sudoku_clauses ++ clueClauses g021 :=
  ⟨((clue_injection_exact g021).2.2 [v 1 2 (cell g021 1 2)]).mpr
      ⟨1, by decide, 2, by decide, by decide, rfl⟩,
   (clue_injection_exact g021).1⟩

/-! ## Behavior on unsatisfiable and malformed inputs -/

/-- A grid with contradictory clues: two 2s in row 1. -/
def gBad2 : Grid :=
  [[2, 2, 0, 0, 0, 0, 0, 0, 0],
   [0, 0, 0, 0, 0, 0, 0, 0, 0],
   [0, 0, 0, 0, 0, 0, 0, 0, 0],
   [0, 0, 0, 0, 0, 0, 0, 0, 0],
   [0, 0, 0, 0, 0, 0, 0, 0, 0],
   [0, 0, 0, 0, 0, 0, 0, 0, 0],
   [0, 0, 0, 0, 0, 0, 0, 0, 0],
   [0, 0, 0, 0, 0, 0, 0, 0, 0],
   [0, 0, 0, 0, 0, 0, 0, 0, 0]]

/-- C7 counterexample: the contradictory-clue instance is indeed
unsatisfiable, yet on the solver's unsatisfiable outcome the decode loop is
still entered and its very first membership test raises a `TypeError` (an
uncaught Python exception), instead of the outcome being handled and
propagated. -/
theorem unsat_crash_counterexample :
    ¬satisfiable (solveClauses gBad2) ∧
      read_cell_run SolverOut.unsat 1 1 = Except.error PyError.typeError ∧
      decodeRun SolverOut.unsat = Except.error PyError.typeError := by
  refine ⟨?_, rfl, rfl⟩
  rintro ⟨α, hsat⟩
  have hm1 : [v 1 1 2] ∈ solveClauses gBad2 := by
    refine mem_solveClauses.mpr (Or.inr (mem_clueClauses.mpr
      ⟨1, by decide, 1, by decide, by decide, by decide⟩))
  have hm2 : [v 1 2 2] ∈ solveClauses gBad2 := by
    refine mem_solveClauses.mpr (Or.inr (mem_clueClauses.mpr
      ⟨1, by decide, 2, by decide, by decide, by decide⟩))
  have hm3 : [-v 1 1 2, -v 1 2 2] ∈ solveClauses gBad2 := by
    refine mem_solveClauses.mpr (Or.inl (mem_sudoku_clauses.mpr (Or.inr
      ⟨rowCells 1, mem_groups.mpr (Or.inl ⟨1, by decide, Or.inl rfl⟩), ?_⟩)))
    exact mem_validClauses.mpr ⟨(0, (1, 1)), by decide, (1, (1, 2)), by decide,
      by decide, 2, by decide, by decide⟩
  obtain ⟨l1, hl1, hsat1⟩ := hsat _ hm1
  rw [List.mem_singleton] at hl1
  subst hl1
  simp only [litSat] at hsat1
  rw [if_pos (by decide)] at hsat1
  obtain ⟨l2, hl2, hsat2⟩ := hsat _ hm2
  rw [List.mem_singleton] at hl2
  subst hl2
  simp only [litSat] at hsat2
  rw [if_pos (by decide)] at hsat2
  obtain ⟨l3, hl3, hsat3⟩ := hsat _ hm3
  simp only [List.mem_cons, List.not_mem_nil, or_false] at hl3
  rcases hl3 with rfl | rfl <;> simp only [litSat] at hsat3
  · rw [if_neg (by decide), neg_neg] at hsat3
    rw [hsat1] at hsat3
    exact Bool.noConfusion hsat3
  · rw [if_neg (by decide), neg_neg] at hsat3
    rw [hsat2] at hsat3
    exact Bool.noConfusion hsat3

/-- C7 amended: on the Unsatisfiable outcome `solve` does not handle the
result; decoding is attempted, every `read_cell` membership test raises a
`TypeError`, and the decode loop aborts with that error (no grid cell is
written, and no Unsatisfiable value is propagated). -/
theorem decode_unsat_raises :
    (∀ i j : Int, read_cell_run SolverOut.unsat i j = Except.error PyError.typeError) ∧
      decodeRun SolverOut.unsat = Except.error PyError.typeError :=
  ⟨fun i j => rfl, rfl⟩

/-- C8 counterexample: with two digits asserted for cell `(1, 1)` the decoder
silently returns the smaller digit (`v 1 1 3 = 3`, `v 1 1 5 = 5`), and with no
digit asserted it returns `None` and the decode loop still fills the whole
grid with `None` — no defect signal distinct from Unsatisfiable is raised. -/
theorem decode_no_defect_counterexample :
    read_cell [v 1 1 3, v 1 1 5] 1 1 = some 3 ∧
      read_cell ([] : List Int) 1 1 = none ∧
      decodeGrid ([] : List Int) =
        List.replicate 9 (List.replicate 9 (none : Option Int)) := by
  refine ⟨by decide, by decide, by decide⟩

theorem pyRange_eq_nil {a b : Int} (h : b ≤ a) : pyRange a b = [] := by
  rw [pyRange, show (b - a).toNat = 0 by omega]
  rfl

theorem pyRange_cons {a b : Int} (h : a < b) : pyRange a b = a :: pyRange (a + 1) b := by
  rw [pyRange, pyRange, show (b - a).toNat = (b - (a + 1)).toNat + 1 by omega,
    List.range_succ_eq_map, List.map_cons, List.map_map]
  congr 1
  · simp
  · apply List.map_congr_left
    intro k _
    simp only [Function.comp_apply]
    push_cast
    omega

theorem find?_pyRange_min {p : Int → Bool} :
    ∀ (n : Nat) (a b : Int), (b - a).toNat = n →
      ∀ {d2 : Int}, (pyRange a b).find? p = some d2 →
        ∀ d3 ∈ pyRange a b, p d3 = true → d2 ≤ d3 := by
  intro n
  induction n with
  | zero =>
    intro a b hn d2 hfind d3 hd3 hp
    rw [pyRange_eq_nil (by omega)] at hfind
    exact absurd hfind (by simp)
  | succ m ih =>
    intro a b hn d2 hfind d3 hd3 hp
    have hab : a < b := by omega
    rw [pyRange_cons hab] at hfind hd3
    by_cases hpa : p a
    · rw [List.find?_cons_of_pos _ hpa] at hfind
      have hd2a : d2 = a := by
        have := Option.some_inj.mp hfind
        omega
      rcases List.mem_cons.mp hd3 with rfl | hd3
      · omega
      · have := (mem_pyRange.mp hd3).1
        omega
    · rw [List.find?_cons_of_neg _ hpa] at hfind
      rcases List.mem_cons.mp hd3 with rfl | hd3
      · exact absurd hp hpa
      · exact ih (a + 1) b (by omega) hfind d3 hd3 hp

/-- C8 amended: when no digit of a cell is asserted, `read_cell` returns
`None` (written into the grid, not a raised defect); when at least one is
asserted it silently returns the smallest asserted digit. -/
theorem read_cell_no_defect_signal (sol : List Int) (i j : Int) :
    ((∀ d ∈ pyRange 1 10, v i j d ∉ sol) → read_cell sol i j = none) ∧
    (∀ d ∈ pyRange 1 10, v i j d ∈ sol →
      ∃ d2 ∈ pyRange 1 10, read_cell sol i j = some d2 ∧ v i j d2 ∈ sol ∧
        ∀ d3 ∈ pyRange 1 10, v i j d3 ∈ sol → d2 ≤ d3) := by
  constructor
  · intro hnone
    rw [read_cell, List.find?_eq_none]
    intro d hd hcon
    exact hnone d hd (List.elem_iff.mp hcon)
  · intro d hd hdin
    have hsome : (read_cell sol i j).isSome :=
      List.find?_isSome.mpr ⟨d, hd, List.elem_iff.mpr hdin⟩
    obtain ⟨d2, hd2⟩ := Option.isSome_iff_exists.mp hsome
    rw [read_cell] at hd2
    have hd2mem := List.mem_of_find?_eq_some hd2
    have hd2t := List.find?_some hd2
    refine ⟨d2, hd2mem, hd2, List.elem_iff.mp hd2t, ?_⟩
    intro d3 hd3 hd3in
    exact find?_pyRange_min ((10 : Int) - 1).toNat 1 10 rfl hd2 d3 hd3
      (List.elem_iff.mpr hd3in)

/-- Witness for the amended C8 at `sol = [3, 5]` (both `v(1,1,3) = 3` and
`v(1,1,5) = 5` asserted): the smaller digit is returned. -/
theorem read_cell_no_defect_signal_witness :
    ∃ d2 ∈ pyRange 1 10, read_cell [3, 5] 1 1 = some d2 ∧ v 1 1 d2 ∈ ([3, 5] : List Int) ∧
      ∀ d3 ∈ pyRange 1 10, v 1 1 d3 ∈ ([3, 5] : List Int) → d2 ≤ d3 :=
  (read_cell_no_defect_signal [3, 5] 1 1).2 3 (by decide) (by decide)

/-- A grid with a cell value outside `[0, 9]`. -/
def g10 : Grid :=
  [[10, 0, 0, 0, 0, 0, 0, 0, 0],
   [0, 0, 0, 0, 0, 0, 0, 0, 0],
   [0, 0, 0, 0, 0, 0, 0, 0, 0],
   [0, 0, 0, 0, 0, 0, 0, 0, 0],
   [0, 0, 0, 0, 0, 0, 0, 0, 0],
   [0, 0, 0, 0, 0, 0, 0, 0, 0],
   [0, 0, 0, 0, 0, 0, 0, 0, 0],
   [0, 0, 0, 0, 0, 0, 0, 0, 0],
   [0, 0, 0, 0, 0, 0, 0, 0, 0]]

/-- C9 counterexample: for the grid whose cell `(1, 1)` is `10` (outside
`[0, 9]`), no rejection happens: the clause collection is still built, the
malformed unit clause `[v(1, 1, 10)] = [10]` is in it, and that variable
collides with the legitimate variable `v(1, 2, 1)`. -/
theorem malformed_not_rejected_counterexample :
    cell g10 1 1 = 10 ∧ ¬(0 ≤ cell g10 1 1 ∧ cell g10 1 1 ≤ 9) ∧
      clueClauses g10 = [[v 1 1 10]] ∧
      solveClauses g10 = sudoku_clauses ++ [[v 1 1 10]] ∧
      [v 1 1 10] ∈ solveClauses g10 ∧ v 1 1 10 = v 1 2 1 := by
  have hclue : clueClauses g10 = [[v 1 1 10]] := by decide
  refine ⟨by decide, by decide, hclue, ?_, ?_, by decide⟩
  · rw [solveClauses, hclue]
  · refine mem_solveClauses.mpr (Or.inr ?_)
    rw [hclue]
    exact List.mem_singleton_self _

/-- C9 amended: `solve` performs no validation of cell values: every nonzero
cell, whatever its value, contributes its unit clause to the collection that
is then handed to the solver. -/
theorem clue_clause_no_validation (g : Grid) (i j : Int) (hi : i ∈ pyRange 1 10)
    (hj : j ∈ pyRange 1 10) (hnz : cell g i j ≠ 0) :
    [v i j (cell g i j)] ∈ solveClauses g :=
  mem_solveClauses.mpr (Or.inr (mem_clueClauses.mpr ⟨i, hi, j, hj, hnz, rfl⟩))

/-- Witness for the amended C9 at the out-of-range grid `g10`. -/
theorem clue_clause_no_validation_witness : [v 1 1 (cell g10 1 1)] ∈ solveClauses g10 :=
  clue_clause_no_validation g10 1 1 (by decide) (by decide) (by decide)

/-- A concrete solver for the C10 witness: satisfiable on the empty clause
list, unsatisfiable otherwise. -/
def oneShotSolver : List (List Int) → SolverOut :=
  fun cs => if cs.length = 0 then SolverOut.sat [1] else SolverOut.unsat

/-- C10: when the first solver call returns a satisfying assignment,
`is_proper` appends exactly one clause — the literal-wise negation of that
assignment — to the caller's clause list (leaving the rest unchanged), and
returns `True` exactly when the re-solve of the extended list reports no
satisfying assignment. -/
theorem is_proper_behavior (solver : List (List Int) → SolverOut)
    (clauses : List (List Int)) (sol : List Int)
    (h : solver clauses = SolverOut.sat sol) :
    ∃ b : Bool, is_proper solver clauses =
        Except.ok (b, clauses ++ [sol.map (fun x => -x)]) ∧
      (b = true ↔ solver (clauses ++ [sol.map (fun x => -x)]) = SolverOut.unsat) := by
  cases h2 : solver (clauses ++ [sol.map (fun x => -x)]) with
  | sat s2 =>
    refine ⟨false, ?_, by simp [h2]⟩
    simp [is_proper, h, h2]
  | unsat =>
    refine ⟨true, ?_, by simp [h2]⟩
    simp [is_proper, h, h2]

/-- Witness for C10 with a concrete solver whose first call is satisfiable
and whose re-solve is unsatisfiable. -/
theorem is_proper_behavior_witness :
    ∃ b : Bool, is_proper oneShotSolver [] =
        Except.ok (b, [] ++ [List.map (fun x => -x) [1]]) ∧
      (b = true ↔ oneShotSolver ([] ++ [List.map (fun x => -x) [1]]) = SolverOut.unsat) :=
  is_proper_behavior oneShotSolver [] [1] (by decide)

/-! ## Clause counts (C3) -/

theorem pyRange_one_ten : pyRange 1 10 = [1, 2, 3, 4, 5, 6, 7, 8, 9] := by decide

theorem length_cell_block (i j : Int) :
    (((pyRange 1 10).map (fun d => v i j d)) ::
      (pyRange 1 10).flatMap (fun d =>
        (pyRange (d + 1) 10).map (fun dp => [-v i j d, -v i j dp]))).length = 37 := by
  rw [List.length_cons, List.length_flatMap, pyRange_one_ten]
  simp [length_pyRange]

theorem length_cellClauses : cellClauses.length = 2997 := by
  rw [cellClauses, List.length_flatMap]
  have hrow : ∀ i : Int,
      ((pyRange 1 10).flatMap (fun j =>
        ((pyRange 1 10).map (fun d => v i j d)) ::
        (pyRange 1 10).flatMap (fun d =>
          (pyRange (d + 1) 10).map (fun dp => [-v i j d, -v i j dp])))).length = 333 := by
    intro i
    rw [List.length_flatMap]
    have heq : List.map (List.length ∘ (fun j =>
        ((pyRange 1 10).map (fun d => v i j d)) ::
        (pyRange 1 10).flatMap (fun d =>
          (pyRange (d + 1) 10).map (fun dp => [-v i j d, -v i j dp])))) (pyRange 1 10) =
        List.map (fun _ => (37 : Nat)) (pyRange 1 10) :=
      List.map_congr_left (fun j _ => length_cell_block i j)
    rw [heq, pyRange_one_ten]
    decide
  have heq2 : List.map (List.length ∘ (fun i => (pyRange 1 10).flatMap (fun j =>
      ((pyRange 1 10).map (fun d => v i j d)) ::
      (pyRange 1 10).flatMap (fun d =>
        (pyRange (d + 1) 10).map (fun dp => [-v i j d, -v i j dp]))))) (pyRange 1 10) =
      List.map (fun _ => (333 : Nat)) (pyRange 1 10) :=
    List.map_congr_left (fun i _ => hrow i)
  rw [heq2, pyRange_one_ten]
  decide

theorem countP_flatMap {α β : Type} (p : β → Bool) (f : α → List β) :
    ∀ l : List α, (l.flatMap f).countP p = (l.map (fun a => (f a).countP p)).sum := by
  intro l
  induction l with
  | nil => rfl
  | cons x xs ih => simp [List.flatMap_cons, List.countP_append, ih]

theorem countP_cellClauses (p : List Int → Bool) (k : Nat)
    (hblock : ∀ i j : Int, (((pyRange 1 10).map (fun d => v i j d)) ::
      (pyRange 1 10).flatMap (fun d =>
        (pyRange (d + 1) 10).map (fun dp => [-v i j d, -v i j dp]))).countP p = k) :
    cellClauses.countP p = 81 * k := by
  rw [cellClauses, countP_flatMap]
  have hrow : ∀ i : Int, ((pyRange 1 10).flatMap (fun j =>
      ((pyRange 1 10).map (fun d => v i j d)) ::
      (pyRange 1 10).flatMap (fun d =>
        (pyRange (d + 1) 10).map (fun dp => [-v i j d, -v i j dp])))).countP p = 9 * k := by
    intro i
    rw [countP_flatMap]
    have heq : List.map (fun j => ((((pyRange 1 10).map (fun d => v i j d)) ::
        (pyRange 1 10).flatMap (fun d =>
          (pyRange (d + 1) 10).map (fun dp => [-v i j d, -v i j dp]))).countP p))
        (pyRange 1 10) = List.map (fun _ => k) (pyRange 1 10) :=
      List.map_congr_left (fun j _ => hblock i j)
    rw [heq, pyRange_one_ten]
    simp [List.sum_cons]
    ring
  have heq2 : List.map (fun i => (((pyRange 1 10).flatMap (fun j =>
      ((pyRange 1 10).map (fun d => v i j d)) ::
      (pyRange 1 10).flatMap (fun d =>
        (pyRange (d + 1) 10).map (fun dp => [-v i j d, -v i j dp])))).countP p))
      (pyRange 1 10) = List.map (fun _ => 9 * k) (pyRange 1 10) :=
    List.map_congr_left (fun i _ => hrow i)
  rw [heq2, pyRange_one_ten]
  simp [List.sum_cons]
  ring

theorem countP_block_len9 (i j : Int) :
    (((pyRange 1 10).map (fun d => v i j d)) ::
      (pyRange 1 10).flatMap (fun d =>
        (pyRange (d + 1) 10).map (fun dp => [-v i j d, -v i j dp]))).countP
        (fun c => c.length == 9) = 1 := by
  rw [List.countP_cons]
  have hhead : ((((pyRange 1 10).map (fun d => v i j d)).length == 9) : Bool) = true := by
    rw [List.length_map, length_pyRange]
    decide
  have hrest : ((pyRange 1 10).flatMap (fun d =>
      (pyRange (d + 1) 10).map (fun dp => [-v i j d, -v i j dp]))).countP
      (fun c => c.length == 9) = 0 := by
    rw [List.countP_eq_zero]
    intro c hc
    rw [List.mem_flatMap] at hc
    obtain ⟨d, _, hc⟩ := hc
    rw [List.mem_map] at hc
    obtain ⟨dp, _, rfl⟩ := hc
    simp
  rw [hrest, hhead]
  rfl

theorem countP_block_len2 (i j : Int) :
    (((pyRange 1 10).map (fun d => v i j d)) ::
      (pyRange 1 10).flatMap (fun d =>
        (pyRange (d + 1) 10).map (fun dp => [-v i j d, -v i j dp]))).countP
        (fun c => c.length == 2) = 36 := by
  rw [List.countP_cons]
  have hhead : ((((pyRange 1 10).map (fun d => v i j d)).length == 2) : Bool) = false := by
    rw [List.length_map, length_pyRange]
    decide
  have hall : ∀ c ∈ (pyRange 1 10).flatMap (fun d =>
      (pyRange (d + 1) 10).map (fun dp => [-v i j d, -v i j dp])),
      ((c.length == 2) : Bool) = true := by
    intro c hc
    rw [List.mem_flatMap] at hc
    obtain ⟨d, _, hc⟩ := hc
    rw [List.mem_map] at hc
    obtain ⟨dp, _, rfl⟩ := hc
    simp
  rw [List.countP_eq_length.mpr hall, hhead]
  have hlen36 : ((pyRange 1 10).flatMap (fun d =>
      (pyRange (d + 1) 10).map (fun dp => [-v i j d, -v i j dp]))).length = 36 := by
    rw [List.length_flatMap]
    have heq : List.map (List.length ∘ (fun d =>
        (pyRange (d + 1) 10).map (fun dp => [-v i j d, -v i j dp]))) (pyRange 1 10) =
        List.map (fun d => (10 - (d + 1)).toNat) (pyRange 1 10) :=
      List.map_congr_left (fun d _ => by
        simp only [Function.comp_apply, List.length_map, length_pyRange])
    rw [heq, pyRange_one_ten]
    decide
  rw [hlen36]
  simp

set_option maxRecDepth 40000 in
theorem length_validClauses {cells : List (Int × Int)} (h : cells.length = 9) :
    (validClauses cells).length = 324 := by
  rcases cells with _ | ⟨c1, _ | ⟨c2, _ | ⟨c3, _ | ⟨c4, _ | ⟨c5, _ | ⟨c6, _ |
    ⟨c7, _ | ⟨c8, _ | ⟨c9, rest⟩⟩⟩⟩⟩⟩⟩⟩⟩ <;>
    simp only [List.length_cons, List.length_nil] at h <;> try omega
  have hr : rest = [] := List.length_eq_zero.mp (by omega)
  subst hr
  rfl

theorem length_group_clauses : (rowColClauses ++ boxClausesAll).length = 8748 := by
  rw [group_clauses_eq, List.length_flatMap]
  have heq : List.map (List.length ∘ validClauses) groups =
      List.map (fun _ => (324 : Nat)) groups :=
    List.map_congr_left (fun gc hgc => length_validClauses (length_of_groups hgc))
  rw [heq]
  have hsum : ∀ l : List (List (Int × Int)),
      (List.map (fun _ => (324 : Nat)) l).sum = l.length * 324 := by
    intro l
    induction l with
    | nil => rfl
    | cons x xs ih =>
      simp only [List.map_cons, List.sum_cons, ih, List.length_cons]
      ring
  have h27 : groups.length = 27 := by
    rw [groups, List.length_append, List.length_flatMap]
    have heq1 : List.map (List.length ∘ (fun i => [rowCells i, colCells i]))
        (pyRange 1 10) = List.map (fun _ => (2 : Nat)) (pyRange 1 10) :=
      List.map_congr_left (fun i _ => rfl)
    rw [heq1, pyRange_one_ten, List.length_flatMap]
    have heq2 : List.map (List.length ∘ (fun i =>
        List.map (fun j => boxCells i j) ([1, 4, 7] : List Int)))
        ([1, 4, 7] : List Int) = List.map (fun _ => (3 : Nat)) ([1, 4, 7] : List Int) :=
      List.map_congr_left (fun i _ => by simp)
    rw [heq2]
    decide
  rw [hsum groups, h27]

/-- C3: the base clause builder returns exactly 11745 clauses — 81
"at least one digit" clauses (the length-9 clauses), 2916 "not two digits"
clauses (the length-2 clauses of the per-cell loop), and 8748 "distinct
values" clauses (324 per group for the 27 groups).  `sudoku_clauses` takes no
input, so the result is the same value on every call and is independent of
any puzzle. -/
theorem base_clause_counts :
    sudoku_clauses.length = 11745 ∧
    cellClauses.length = 2997 ∧
    cellClauses.countP (fun c => c.length == 9) = 81 ∧
    cellClauses.countP (fun c => c.length == 2) = 2916 ∧
    (rowColClauses ++ boxClausesAll).length = 8748 := by
  refine ⟨?_, length_cellClauses, ?_, ?_, length_group_clauses⟩
  · rw [sudoku_clauses, List.append_assoc, List.length_append, length_cellClauses,
      List.length_append]
    have h8748 := length_group_clauses
    rw [List.length_append] at h8748
    omega
  · rw [countP_cellClauses (fun c => c.length == 9) 1 countP_block_len9]
  · rw [countP_cellClauses (fun c => c.length == 2) 36 countP_block_len2]

/-! ## Structure of the group clauses (C4) -/

theorem nodup_index_unique {cells : List (Int × Int)} (hnd : cells.Nodup)
    {n m : Nat} {p : Int × Int} (hn : cells.get? n = some p)
    (hm : cells.get? m = some p) : n = m := by
  have hlen : n < cells.length := (List.get?_eq_some.mp hn).1
  exact List.get?_inj hlen hnd (hn.trans hm.symm)

theorem nodup_validClauses {cells : List (Int × Int)} (hnd : cells.Nodup)
    (hcoord : ∀ p ∈ cells, p.1 ∈ pyRange 1 10 ∧ p.2 ∈ pyRange 1 10) :
    (validClauses cells).Nodup := by
  rw [validClauses, List.nodup_flatMap]
  constructor
  · intro ix hix
    rw [List.nodup_flatMap]
    constructor
    · intro jx hjx
      by_cases hc : ix.1 < jx.1
      · rw [if_pos hc]
        refine List.Nodup.map ?_ (nodup_pyRange 1 10)
        intro d1 d2 hdd
        simp only [List.cons.injEq, and_true] at hdd
        have h1 := neg_inj.mp hdd.1
        simp only [v] at h1
        omega
      · rw [if_neg hc]
        exact List.nodup_nil
    · rw [List.pairwise_iff_getElem]
      intro n m hn hm hnm
      intro c hc1 hc2
      rw [List.getElem_enum] at hc1 hc2
      rw [mem_ite_nil] at hc1 hc2
      obtain ⟨hlt1, hc1⟩ := hc1
      obtain ⟨hlt2, hc2⟩ := hc2
      rw [List.mem_map] at hc1 hc2
      obtain ⟨d1, hd1, hceq1⟩ := hc1
      obtain ⟨d2, hd2, hceq2⟩ := hc2
      have heq := hceq1.trans hceq2.symm
      simp only [List.cons.injEq, and_true] at heq
      have hd12 : d1 = d2 := by
        have h1 := neg_inj.mp heq.1
        simp only [v] at h1
        omega
      subst hd12
      have h2 := neg_inj.mp heq.2
      have hbn : n < cells.length := by rwa [List.enum_length] at hn
      have hbm : m < cells.length := by rwa [List.enum_length] at hm
      have hcn := hcoord _ (List.getElem_mem hbn)
      have hcm := hcoord _ (List.getElem_mem hbm)
      obtain ⟨he1, he2, _⟩ := v_inj hcn.1 hcn.2 hd1 hcm.1 hcm.2 hd1 h2
      have hinj := List.nodup_iff_injective_get.mp hnd
      have hfin : (⟨n, hbn⟩ : Fin cells.length) = ⟨m, hbm⟩ := by
        apply hinj
        rw [List.get_eq_getElem, List.get_eq_getElem]
        exact Prod.ext_iff.mpr ⟨he1, he2⟩
      have := congrArg Fin.val hfin
      simp only at this
      omega
  · rw [List.pairwise_iff_getElem]
    intro n m hn hm hnm
    intro c hc1 hc2
    rw [List.mem_flatMap] at hc1 hc2
    obtain ⟨jx1, hjx1, hc1⟩ := hc1
    obtain ⟨jx2, hjx2, hc2⟩ := hc2
    rw [List.getElem_enum] at hc1 hc2
    rw [mem_ite_nil] at hc1 hc2
    obtain ⟨hlt1, hc1⟩ := hc1
    obtain ⟨hlt2, hc2⟩ := hc2
    rw [List.mem_map] at hc1 hc2
    obtain ⟨d1, hd1, hceq1⟩ := hc1
    obtain ⟨d2, hd2, hceq2⟩ := hc2
    have heq := hceq1.trans hceq2.symm
    simp only [List.cons.injEq, and_true] at heq
    have h1 := neg_inj.mp heq.1
    have hbn : n < cells.length := by rwa [List.enum_length] at hn
    have hbm : m < cells.length := by rwa [List.enum_length] at hm
    have hcn := hcoord _ (List.getElem_mem hbn)
    have hcm := hcoord _ (List.getElem_mem hbm)
    obtain ⟨he1, he2, _⟩ := v_inj hcn.1 hcn.2 hd1 hcm.1 hcm.2 hd2 h1
    have hinj := List.nodup_iff_injective_get.mp hnd
    have hfin : (⟨n, hbn⟩ : Fin cells.length) = ⟨m, hbm⟩ := by
      apply hinj
      rw [List.get_eq_getElem, List.get_eq_getElem]
      exact Prod.ext_iff.mpr ⟨he1, he2⟩
    have := congrArg Fin.val hfin
    simp only at this
    omega

theorem validClauses_pair_exactly_one {cells : List (Int × Int)} (hnd : cells.Nodup)
    (hcoord : ∀ p ∈ cells, p.1 ∈ pyRange 1 10 ∧ p.2 ∈ pyRange 1 10)
    {x y : Int × Int} (hx : x ∈ cells) (hy : y ∈ cells) (hxy : x ≠ y)
    {d : Int} (hd : d ∈ pyRange 1 10) :
    ([-v x.1 x.2 d, -v y.1 y.2 d] ∈ validClauses cells ∧
      [-v y.1 y.2 d, -v x.1 x.2 d] ∉ validClauses cells) ∨
    ([-v y.1 y.2 d, -v x.1 x.2 d] ∈ validClauses cells ∧
      [-v x.1 x.2 d, -v y.1 y.2 d] ∉ validClauses cells) := by
  obtain ⟨n, hn⟩ := List.mem_iff_get?.mp hx
  obtain ⟨m, hm⟩ := List.mem_iff_get?.mp hy
  have hnm : n ≠ m := by
    intro h
    rw [h] at hn
    exact hxy (Option.some_inj.mp (hn.symm.trans hm))
  have hnot : ∀ (p q : Int × Int) (np mq : Nat), cells.get? np = some p →
      cells.get? mq = some q → mq ≤ np →
      [-v p.1 p.2 d, -v q.1 q.2 d] ∉ validClauses cells := by
    intro p q np mq hp hq hle hmem
    obtain ⟨nx, hnx, mx, hmx, hlt, d2, hd2, hceq⟩ := mem_validClauses.mp hmem
    rw [List.mem_enum_iff_get?] at hnx hmx
    have hpc := hcoord p (List.get?_mem hp)
    have hqc := hcoord q (List.get?_mem hq)
    have hnxc := hcoord nx.2 (List.get?_mem hnx)
    have hmxc := hcoord mx.2 (List.get?_mem hmx)
    simp only [List.cons.injEq, and_true] at hceq
    have h1 := neg_inj.mp hceq.1
    have h2 := neg_inj.mp hceq.2
    obtain ⟨hp1, hp2, _⟩ := v_inj hpc.1 hpc.2 hd hnxc.1 hnxc.2 hd2 h1
    obtain ⟨hq1, hq2, _⟩ := v_inj hqc.1 hqc.2 hd hmxc.1 hmxc.2 hd2 h2
    have hpe : p = nx.2 := Prod.ext_iff.mpr ⟨hp1, hp2⟩
    have hqe : q = mx.2 := Prod.ext_iff.mpr ⟨hq1, hq2⟩
    rw [← hpe] at hnx
    rw [← hqe] at hmx
    have hidx1 : nx.1 = np := nodup_index_unique hnd hnx hp
    have hidx2 : mx.1 = mq := nodup_index_unique hnd hmx hq
    omega
  rcases Nat.lt_or_ge n m with hlt | hge
  · left
    refine ⟨mem_validClauses.mpr ⟨(n, x), List.mem_enum_iff_get?.mpr hn, (m, y),
      List.mem_enum_iff_get?.mpr hm, hlt, d, hd, rfl⟩, hnot y x m n hm hn (by omega)⟩
  · have hlt : m < n := by omega
    right
    refine ⟨mem_validClauses.mpr ⟨(m, y), List.mem_enum_iff_get?.mpr hm, (n, x),
      List.mem_enum_iff_get?.mpr hn, hlt, d, hd, rfl⟩, hnot x y n m hn hm (by omega)⟩

theorem mem_boxCells {a b : Int} {p : Int × Int} :
    p ∈ boxCells a b ↔ a ≤ p.1 ∧ p.1 < a + 3 ∧ b ≤ p.2 ∧ p.2 < b + 3 := by
  rw [boxCells, List.mem_map]
  constructor
  · rintro ⟨k, hk, rfl⟩
    rw [mem_pyRange] at hk
    dsimp only
    omega
  · rintro ⟨h1, h2, h3, h4⟩
    obtain ⟨p1, p2⟩ := p
    simp only at h1 h2 h3 h4
    refine ⟨(p1 - a) + 3 * (p2 - b), mem_pyRange.mpr (by omega), ?_⟩
    rw [Prod.mk.injEq]
    constructor <;> omega

theorem count_eq_one_of_mem_nodup :
    ∀ {l : List (List Int)}, l.Nodup → ∀ {a : List Int}, a ∈ l → l.count a = 1 := by
  intro l
  induction l with
  | nil =>
    intro _ a ha
    simp at ha
  | cons x xs ih =>
    intro hnd a ha
    rw [List.count_cons]
    rcases List.mem_cons.mp ha with rfl | hmem
    · rw [List.count_eq_zero.mpr (List.nodup_cons.mp hnd).1]
      simp
    · rw [ih (List.nodup_cons.mp hnd).2 hmem]
      have hxa : ¬((x == a) = true) := by
        intro hbeq
        have hx : x = a := by simpa using hbeq
        rw [hx] at hnd
        exact (List.nodup_cons.mp hnd).1 hmem
      rw [if_neg hxa]

/-- C4: every one of the 27 cell groups (rows, columns, and the boxes
anchored at `{1,4,7} x {1,4,7}` via `(i + k % 3, j + k / 3)`) yields exactly
324 clauses; for every unordered pair of distinct cells `x, y` of a group and
every digit `d` exactly one clause `[-v x d, -v y d]` (in one of the two
orientations) occurs; every group clause has this form; and the box anchors'
cell sets are exactly the 3x3 boxes. -/
theorem group_clause_structure :
    (∀ gc ∈ groups, (validClauses gc).length = 324) ∧
    (∀ gc ∈ groups, (validClauses gc).Nodup) ∧
    (∀ gc ∈ groups, ∀ x ∈ gc, ∀ y ∈ gc, x ≠ y → ∀ d ∈ pyRange 1 10,
      (validClauses gc).count [-v x.1 x.2 d, -v y.1 y.2 d] +
        (validClauses gc).count [-v y.1 y.2 d, -v x.1 x.2 d] = 1) ∧
    (∀ gc ∈ groups, ∀ c ∈ validClauses gc, ∃ x ∈ gc, ∃ y ∈ gc, x ≠ y ∧
      ∃ d ∈ pyRange 1 10, c = [-v x.1 x.2 d, -v y.1 y.2 d]) ∧
    (∀ a ∈ ([1, 4, 7] : List Int), ∀ b ∈ ([1, 4, 7] : List Int), ∀ p : Int × Int,
      p ∈ boxCells a b ↔ a ≤ p.1 ∧ p.1 < a + 3 ∧ b ≤ p.2 ∧ p.2 < b + 3) := by
  have hco : ∀ gc ∈ groups, ∀ p ∈ gc, p.1 ∈ pyRange 1 10 ∧ p.2 ∈ pyRange 1 10 :=
    fun gc hgc p hp => coords_of_groups hgc hp
  refine ⟨?_, ?_, ?_, ?_, ?_⟩
  · intro gc hgc
    exact length_validClauses (length_of_groups hgc)
  · intro gc hgc
    exact nodup_validClauses (nodup_of_groups hgc) (hco gc hgc)
  · intro gc hgc x hx y hy hxy d hd
    have hnd := nodup_validClauses (nodup_of_groups hgc) (hco gc hgc)
    rcases validClauses_pair_exactly_one (nodup_of_groups hgc) (hco gc hgc)
        hx hy hxy hd with ⟨hin, hout⟩ | ⟨hin, hout⟩ <;>
      rw [count_eq_one_of_mem_nodup hnd hin, List.count_eq_zero.mpr hout]
  · intro gc hgc c hc
    obtain ⟨nx, hnx, mx, hmx, hlt, d, hd, rfl⟩ := mem_validClauses.mp hc
    rw [List.mem_enum_iff_get?] at hnx hmx
    refine ⟨nx.2, List.get?_mem hnx, mx.2, List.get?_mem hmx, ?_, d, hd, rfl⟩
    intro he
    rw [he] at hnx
    have := nodup_index_unique (nodup_of_groups hgc) hnx hmx
    omega
  · intro a _ b _ p
    exact mem_boxCells

set_option maxRecDepth 40000 in
/-- Witness for C4 at row group 1, the cell pair `(1,1), (1,2)`, digit 5, and
the box anchored at `(1, 4)`. -/
theorem group_clause_structure_witness :
    (validClauses (rowCells 1)).length = 324 ∧
      (validClauses (rowCells 1)).count [-v 1 1 5, -v 1 2 5] +
        (validClauses (rowCells 1)).count [-v 1 2 5, -v 1 1 5] = 1 ∧
      (((1 : Int), (5 : Int)) ∈ boxCells 1 4 ↔
        (1 : Int) ≤ 1 ∧ (1 : Int) < 1 + 3 ∧ (4 : Int) ≤ 5 ∧ (5 : Int) < 4 + 3) := by
  obtain ⟨h1, h2, h3, h4, h5⟩ := group_clause_structure
  have hgc : rowCells 1 ∈ groups := mem_groups.mpr (Or.inl ⟨1, by decide, Or.inl rfl⟩)
  refine ⟨h1 _ hgc, ?_, ?_⟩
  · exact h3 _ hgc (1, 1) (by decide) (1, 2) (by decide) (by decide) 5 (by decide)
  · exact h5 1 (by decide) 4 (by decide) ((1 : Int), (5 : Int))
